import Mathlib

/-!
Verification of the nymcat single-room broadcast coordinator.

The definitions below are a shallow embedding of the Rust sources:

* `src/simple.rs`   — `run_room_server`, `RoomState`, `broadcast_to_participants`,
  the pruning task, the message-processor worker, and the inbound event handler;
* `src/main.rs`     — the `create` path's `RoomState` and its periodic state-sync task;
* `src/common.rs`   — `ChatMessage` and `HistoryItem`.

Opaque transport-level values are modelled by `Nat`:
an `AnonymousSenderTag` (recipient handle) is a `Nat`, and clock readings
(`SystemTime`, `Instant`) are `Nat` time units. Serialized payload bytes are
modelled by the `ChatMessage` value itself (serialization in the source is
`serde_json::to_vec`, which succeeds on these message types). The bounded
tokio `mpsc` channel of `simple.rs` is modelled by an explicit queue `List`
together with the documented semantics of `tokio::sync::mpsc::Sender::send`:
the send completes when the queue holds fewer than `capacity` items, suspends
the sending task while the queue is at capacity, and returns an error exactly
when the receiving half has been dropped.
-/

namespace Nymcat

/-- Constant `MAX_HISTORY_SIZE` from `src/simple.rs` (also `MAX_HISTORY_ITEMS` in
`src/room_server.rs`): maximum history items to retain. -/
def MAX_HISTORY_SIZE : Nat := 100

/-- Constant `PARTICIPANT_TIMEOUT_SECS` from `src/simple.rs`: prune after this many
seconds of inactivity. -/
def PARTICIPANT_TIMEOUT_SECS : Nat := 300

/-- Constant `MAX_QUEUE_SIZE` from `src/simple.rs`: bound of the delivery queue
(the tokio mpsc channel created in `run_room_server`). -/
def MAX_QUEUE_SIZE : Nat := 1000

/-- Structure `HistoryItem` from `src/common.rs`. The Rust field `from` is a reserved
word in Lean, rendered `from_`. -/
structure HistoryItem where
  from_ : String
  content : String
  timestamp : Nat
deriving DecidableEq, Repr

/-- Type `ChatMessage` from `src/common.rs`. -/
inductive ChatMessage where
  | Join (username : String)
  | Leave (username : String)
  | Text (from_ : String) (content : String) (timestamp : Nat)
  | StateSync (history : List HistoryItem) (participants : List String)
deriving DecidableEq, Repr

/-- Type `MessagePriority` from `src/simple.rs`. -/
inductive MessagePriority where
  | High
  | Medium
  | Low
deriving DecidableEq, Repr

/-- Structure `Participant` from `src/simple.rs`: username, opaque sender tag
(recipient handle), and last-active timestamp. -/
structure Participant where
  username : String
  sender_tag : Nat
  last_active : Nat
deriving DecidableEq, Repr

/-- Structure `RoomState` from `src/simple.rs`. The `HashMap<String, Participant>` keyed
by username is modelled as a list of participants whose usernames are
pairwise distinct (the hash-map key is duplicated in the `username` field in
the source as well). -/
structure RoomState where
  participants : List Participant
  history : List HistoryItem
  start_time : Nat
  message_count : Nat
  broadcast_count : Nat
deriving DecidableEq, Repr

/-- The history update of `RoomState::add_history_item` in `src/simple.rs`,
factored on the history list: `push_back` the item, then if the length
exceeds `MAX_HISTORY_SIZE`, `pop_front` the oldest. -/
def histAppend (h : List HistoryItem) (item : HistoryItem) : List HistoryItem :=
  let h2 := h ++ [item]
  if h2.length > MAX_HISTORY_SIZE then h2.tail else h2

/-- Method `RoomState::add_history_item` from `src/simple.rs`. -/
def addHistoryItem (st : RoomState) (item : HistoryItem) : RoomState :=
  { st with history := histAppend st.history item }

/-- The retain predicate of `RoomState::prune_inactive_participants` in
`src/simple.rs`: a participant is active when `now.duration_since(last_active)`
is `Ok(d)` with `d < timeout`, and is kept when the computation fails
(`last_active` in the future). The timeout is `PARTICIPANT_TIMEOUT_SECS` at
the call site; it is a parameter here. -/
def isActiveAt (now timeout : Nat) (p : Participant) : Bool :=
  if p.last_active ≤ now then now - p.last_active < timeout else true

/-- Method `RoomState::prune_inactive_participants` from `src/simple.rs`: retain the
active participants and return the usernames of the pruned ones, in
traversal order. -/
def pruneInactiveParticipants (now timeout : Nat) (st : RoomState) :
    RoomState × List String :=
  ({ st with participants := st.participants.filter (fun p => isActiveAt now timeout p) },
   (st.participants.filter (fun p => ! isActiveAt now timeout p)).map (·.username))

/-- Structure `QueuedMessage` from `src/simple.rs`: payload (modelled by the message
value in place of its serialized bytes), recipient handle, priority tag, and
the `Instant` at which the enqueue was initiated. -/
structure QueuedMessage where
  message : ChatMessage
  recipient : Nat
  priority : MessagePriority
  timestamp : Nat
deriving DecidableEq, Repr

/-- Outcome of one `tokio::sync::mpsc::Sender::send(..).await` on the bounded
delivery channel of `src/simple.rs` (capacity `MAX_QUEUE_SIZE`), per the
channel's semantics as used by the source: the send completes and appends the
message while the queue holds fewer than `capacity` items; it suspends the
sending task while the queue is at capacity (resuming when the worker makes
room); it returns `Err` exactly when the receiving half has been dropped. -/
inductive SendOutcome where
  | delivered (queue : List QueuedMessage)
  | suspended
  | closed
deriving DecidableEq, Repr

/-- One send on the bounded delivery channel of `src/simple.rs`
(`mpsc::channel::<QueuedMessage>(MAX_QUEUE_SIZE)`): see `SendOutcome`. -/
def channelSend (receiverOpen : Bool) (queue : List QueuedMessage)
    (m : QueuedMessage) : SendOutcome :=
  if receiverOpen = false then .closed
  else if queue.length < MAX_QUEUE_SIZE then .delivered (queue ++ [m])
  else .suspended

/-- Staleness threshold of the message-processor worker in `src/simple.rs`:
the literal `Duration::from_secs(30)`, in milliseconds (time is modelled in
milliseconds so that sub-second elapsed values are representable). -/
def STALE_THRESHOLD_MS : Nat := 30000

/-- The per-message decision of the message-processor worker in
`src/simple.rs` (`run_room_server`, the `rx.recv()` loop): a dequeued message
whose `timestamp.elapsed()` exceeds 30 seconds is skipped; otherwise
`send_reply(msg.recipient, &msg.message)` is attempted. Here `now` is the
`Instant` at dequeue (never earlier than the enqueue instant, `Instant` being
monotone), and `none` means the message is discarded without reaching the
transport, while `some (recipient, payload)` is the attempted `send_reply`. -/
def processQueuedMessage (now : Nat) (m : QueuedMessage) :
    Option (Nat × ChatMessage) :=
  if now - m.timestamp > STALE_THRESHOLD_MS then none
  else some (m.recipient, m.message)

/-- Function `broadcast_to_participants` from `src/simple.rs`: collect the sender tags
of all participants whose username differs from `skip_username`, then spawn
one enqueue per collected tag. The result is the list of enqueues attempted
(each attempt timestamps its `QueuedMessage` with the current `Instant`,
modelled by the single parameter `now`). -/
def broadcastToParticipants (message : ChatMessage)
    (participants : List Participant) (skip_username : String)
    (priority : MessagePriority) (now : Nat) : List QueuedMessage :=
  ((participants.filter (fun p => p.username ≠ skip_username)).map
    (·.sender_tag)).map
    (fun recipient => ⟨message, recipient, priority, now⟩)

/-- Per-recipient enqueue attempts as spawned by `broadcast_to_participants`:
each attempt runs in its own task, so every attempt is made and paired with
its own outcome, whatever the outcomes of the other attempts are. -/
def attemptEnqueues (outcome : QueuedMessage → Bool)
    (attempts : List QueuedMessage) : List (QueuedMessage × Bool) :=
  attempts.map (fun a => (a, outcome a))

/-- Operation `HashMap::insert` on the participants map of `src/simple.rs`
(`state_lock.participants.insert(username, Participant { .. })` in the Join
arm): replace the entry at the key if present, otherwise add a new entry. -/
def upsert (ps : List Participant) (username : String) (tag now : Nat) :
    List Participant :=
  if ps.any (fun p => p.username = username) then
    ps.map (fun p => if p.username = username then ⟨username, tag, now⟩ else p)
  else ps ++ [⟨username, tag, now⟩]

/-- The event dispatch of `client.on_messages` in `run_room_server`
(`src/simple.rs`), reached only for a parsed message carrying a sender tag.
It returns the updated room state and the list of enqueues initiated, in
initiation order (for Join: first the state-sync unicast to the joiner, then
the Join broadcast). -/
def handleEvent (st : RoomState) (message : ChatMessage) (sender_tag : Nat)
    (now : Nat) : RoomState × List QueuedMessage :=
  match message with
  | .Join username =>
      let st1 : RoomState :=
        { st with participants := upsert st.participants username sender_tag now,
                  message_count := st.message_count + 1 }
      let sync : ChatMessage :=
        .StateSync st1.history (st1.participants.map (·.username))
      (st1, ⟨sync, sender_tag, .Medium, now⟩
              :: broadcastToParticipants message st1.participants username .High now)
  | .Leave username =>
      let st1 : RoomState :=
        { st with participants := st.participants.filter (fun p => p.username ≠ username),
                  message_count := st.message_count + 1 }
      (st1, broadcastToParticipants message st1.participants username .High now)
  | .Text f content ts =>
      let st1 : RoomState :=
        { st with participants := (st.participants.map
            (fun p => if p.username = f then { p with last_active := now } else p)) }
      let st2 : RoomState := addHistoryItem st1 ⟨f, content, ts⟩
      let st3 : RoomState := { st2 with message_count := st2.message_count + 1 }
      (st3, broadcastToParticipants message st3.participants f .Low now)
  | .StateSync _ _ => (st, [])

/-- The full inbound path of `client.on_messages` in `run_room_server`
(`src/simple.rs`): an unparseable payload (`parsed = none`) is logged and
dropped; a message without a sender tag is logged and dropped; only then is
the event kind dispatched. -/
def handleInbound (st : RoomState) (parsed : Option ChatMessage)
    (sender_tag : Option Nat) (now : Nat) : RoomState × List QueuedMessage :=
  match parsed with
  | none => (st, [])
  | some message =>
      match sender_tag with
      | none => (st, [])
      | some tag => handleEvent st message tag now

/-- Structure `RoomState` of the `create` path in `src/main.rs`: participants map
username to sender tag, history is an unbounded vector. -/
structure MainRoomState where
  participants : List (String × Nat)
  history : List HistoryItem
deriving DecidableEq, Repr

/-- Destination of a transport send in `src/main.rs`: either the room's own
nym address (`send_message(room_address, ..)`) or a participant's reply tag
(`send_reply(tag, ..)`). -/
inductive SyncDest where
  | room
  | replyTag (tag : Nat)
deriving DecidableEq, Repr

/-- One tick of the periodic state-sync task of the `create` path in
`src/main.rs` (period `STATE_SYNC_INTERVAL_SECS = 30`): if the participants
map or the history is empty, skip; otherwise build a `StateSync` from the
history and the participant usernames and send it once to the room's own
address. The task never mutates the state. -/
def stateSyncTick (st : MainRoomState) : MainRoomState × List (SyncDest × ChatMessage) :=
  if st.participants.isEmpty || st.history.isEmpty then (st, [])
  else
    (st, [(SyncDest.room,
           ChatMessage.StateSync st.history (st.participants.map (·.1)))])

/-!
### Helper lemmas
-/

/-- A single history append never takes the buffer past its capacity. -/
theorem histAppend_length_le (h : List HistoryItem) (i : HistoryItem)
    (hle : h.length ≤ MAX_HISTORY_SIZE) :
    (histAppend h i).length ≤ MAX_HISTORY_SIZE := by
  simp only [histAppend]
  split
  · simp only [List.length_tail, List.length_append, List.length_cons,
      List.length_nil]
    omega
  · rename_i hc
    simp only [List.length_append, List.length_cons, List.length_nil] at hc ⊢
    omega

/-- An append to a buffer exactly at capacity evicts the oldest item. -/
theorem histAppend_at_capacity (h : List HistoryItem) (i : HistoryItem)
    (hlen : h.length = MAX_HISTORY_SIZE) :
    histAppend h i = h.tail ++ [i] := by
  have hne : h ≠ [] := by
    intro hnil
    rw [hnil] at hlen
    simp [MAX_HISTORY_SIZE] at hlen
  simp only [histAppend]
  rw [if_pos (by simp only [List.length_append, List.length_cons,
    List.length_nil, hlen, MAX_HISTORY_SIZE]; omega)]
  exact List.tail_append_of_ne_nil hne

/-- Folding the history update over a list of items from the empty buffer
keeps exactly the last `MAX_HISTORY_SIZE` items, in order. -/
theorem foldl_histAppend_drop (items : List HistoryItem) :
    items.foldl histAppend [] = items.drop (items.length - MAX_HISTORY_SIZE) := by
  induction items using List.reverseRecOn with
  | nil => rfl
  | append_singleton l a ih =>
    rw [List.foldl_append, List.foldl_cons, List.foldl_nil, ih]
    by_cases hlen : l.length < MAX_HISTORY_SIZE
    · have h1 : l.length - MAX_HISTORY_SIZE = 0 := by omega
      have h2 : (l ++ [a]).length - MAX_HISTORY_SIZE = 0 := by
        simp only [List.length_append, List.length_cons, List.length_nil]
        omega
      rw [h1, h2, List.drop_zero, List.drop_zero]
      simp only [histAppend]
      rw [if_neg (by simp only [List.length_append, List.length_cons,
        List.length_nil]; omega)]
    · push_neg at hlen
      have hdl : (l.drop (l.length - MAX_HISTORY_SIZE)).length = MAX_HISTORY_SIZE := by
        rw [List.length_drop]; omega
      rw [histAppend_at_capacity _ _ hdl, List.tail_drop]
      have h3 : (l ++ [a]).length - MAX_HISTORY_SIZE
          = (l.length - MAX_HISTORY_SIZE) + 1 := by
        simp only [List.length_append, List.length_cons, List.length_nil]
        omega
      rw [h3, List.drop_append_of_le_length
        (by have hpos : 0 < MAX_HISTORY_SIZE := by decide
            omega)]

/-- Accumulating text events through `RoomState::add_history_item` acts on
the history field alone, by `histAppend`. -/
theorem foldl_addHistoryItem_history (st : RoomState) (items : List HistoryItem) :
    (items.foldl addHistoryItem st).history = items.foldl histAppend st.history := by
  induction items generalizing st with
  | nil => rfl
  | cons i items ih =>
    rw [List.foldl_cons, List.foldl_cons, ih]
    rfl

/-- The retain predicate of the pruning sweep, rewritten as the claim's
arithmetic condition: a participant is pruned exactly when
`last_active + timeout ≤ now`, that is, when the participant has been
inactive for at least `timeout` at time `now`. -/
theorem isActiveAt_eq_not_timed_out (now timeout : Nat) (p : Participant) :
    isActiveAt now timeout p = ! decide (p.last_active + timeout ≤ now) := by
  simp only [isActiveAt]
  split
  · rename_i h
    rcases Nat.lt_or_ge (now - p.last_active) timeout with h1 | h1
    · rw [decide_eq_true h1, decide_eq_false (by omega)]
      rfl
    · rw [decide_eq_false (by omega), decide_eq_true (by omega)]
      rfl
  · rename_i h
    rw [decide_eq_false (by omega)]
    rfl

/-!
### C2 — History Buffer capacity and FIFO order
-/

/-- C2: for every sequence of append calls on the History Buffer (capacity
`MAX_HISTORY_SIZE = 100`) starting from an empty buffer, after `M ≥ 100`
appends the snapshot has length exactly 100 and equals the last 100 appended
items in call order; an append to a buffer at capacity evicts the oldest
item, and the length never exceeds the capacity. -/
theorem history_buffer_keeps_last_N (st : RoomState) (items : List HistoryItem)
    (h0 : st.history = []) (hM : MAX_HISTORY_SIZE ≤ items.length) :
    (items.foldl addHistoryItem st).history.length = MAX_HISTORY_SIZE ∧
    (items.foldl addHistoryItem st).history
      = items.drop (items.length - MAX_HISTORY_SIZE) ∧
    (∀ (h : List HistoryItem) (i : HistoryItem),
      h.length = MAX_HISTORY_SIZE → histAppend h i = h.tail ++ [i]) ∧
    (∀ (h : List HistoryItem) (i : HistoryItem),
      h.length ≤ MAX_HISTORY_SIZE → (histAppend h i).length ≤ MAX_HISTORY_SIZE) := by
  have key : (items.foldl addHistoryItem st).history
      = items.drop (items.length - MAX_HISTORY_SIZE) := by
    rw [foldl_addHistoryItem_history, h0, foldl_histAppend_drop]
  refine ⟨?_, key, histAppend_at_capacity, histAppend_length_le⟩
  rw [key, List.length_drop]
  omega

/-- C2 witness: 101 appends of a concrete item to an empty room leave a
history of length exactly 100 equal to the last 100 items. -/
theorem history_buffer_keeps_last_N_witness :
    ((List.replicate 101 (⟨"a", "x", 0⟩ : HistoryItem)).foldl addHistoryItem
      ⟨[], [], 0, 0, 0⟩).history.length = MAX_HISTORY_SIZE ∧
    ((List.replicate 101 (⟨"a", "x", 0⟩ : HistoryItem)).foldl addHistoryItem
      ⟨[], [], 0, 0, 0⟩).history
      = (List.replicate 101 (⟨"a", "x", 0⟩ : HistoryItem)).drop
          ((List.replicate 101 (⟨"a", "x", 0⟩ : HistoryItem)).length
            - MAX_HISTORY_SIZE) := by
  have h := history_buffer_keeps_last_N ⟨[], [], 0, 0, 0⟩
    (List.replicate 101 (⟨"a", "x", 0⟩ : HistoryItem)) rfl
    (by simp [MAX_HISTORY_SIZE])
  exact ⟨h.1, h.2.1⟩

/-!
### C3 — the pruning sweep removes exactly the timed-out participants
-/

/-- C3: for every room state, `prune_inactive_participants` (the sweep, with
clock reading `now` and inactivity timeout `timeout`) removes exactly the
participants with `now - last_active ≥ timeout` — equivalently
`last_active + timeout ≤ now` — returns exactly their usernames, and keeps
every other participant entry (handle and last-active timestamp) unchanged:
the retained list is the filter of the original entries. -/
theorem sweep_removes_exactly_timed_out (now timeout : Nat) (st : RoomState) :
    pruneInactiveParticipants now timeout st
      = ({ st with participants :=
             st.participants.filter (fun p => ! decide (p.last_active + timeout ≤ now)) },
         (st.participants.filter (fun p => decide (p.last_active + timeout ≤ now))).map
           (·.username)) := by
  simp only [pruneInactiveParticipants]
  rw [List.filter_congr (fun p _ => isActiveAt_eq_not_timed_out now timeout p),
      List.filter_congr (p := fun p => ! isActiveAt now timeout p)
        (q := fun p => decide (p.last_active + timeout ≤ now))
        (fun p _ => by simp only [isActiveAt_eq_not_timed_out, Bool.not_not])]

/-!
### C5 — stale deliveries are discarded at dequeue time
-/

/-- C5: a dequeued delivery whose enqueue timestamp is more than 30 seconds
in the past at dequeue time is discarded by the worker and never passed to
the transport send call. -/
theorem stale_delivery_never_sent (now : Nat) (m : QueuedMessage)
    (h : now - m.timestamp > STALE_THRESHOLD_MS) :
    processQueuedMessage now m = none := by
  simp only [processQueuedMessage]
  rw [if_pos h]

/-- C5 witness: a message enqueued at instant 0 and dequeued at instant
40000 ms (40 s later) is dropped. -/
theorem stale_delivery_never_sent_witness :
    processQueuedMessage 40000 ⟨.Join "a", 0, .Low, 0⟩ = none :=
  stale_delivery_never_sent 40000 ⟨.Join "a", 0, .Low, 0⟩ (by decide)

/-!
### C1 — behavior of the bounded delivery queue at capacity
-/

/-- C1 counterexample: with the worker's receiving half open and the delivery
queue at its capacity of 1000 pending items, a further enqueue does not
complete with a Full failure: the send suspends the enqueuing task. For
contrast, the same send on a non-full queue completes by appending; the only
failure outcome of the channel (`closed`) is tied to the receiver, not to
fullness. -/
theorem enqueue_at_capacity_suspends :
    channelSend true (List.replicate MAX_QUEUE_SIZE ⟨.Join "x", 0, .Low, 0⟩)
        ⟨.Join "y", 1, .Low, 0⟩ = SendOutcome.suspended ∧
    channelSend true [] ⟨.Join "y", 1, .Low, 0⟩
      = SendOutcome.delivered [⟨.Join "y", 1, .Low, 0⟩] := by
  constructor
  · simp only [channelSend]
    rw [if_neg (by simp), if_neg (by simp [List.length_replicate])]
  · simp only [channelSend]
    rw [if_neg (by simp), if_pos (by simp [MAX_QUEUE_SIZE]), List.nil_append]

/-- C1 (amended): for every delivery-queue state, an enqueue at the bounded
capacity (1000 pending items) does not return a Full failure: it suspends the
enqueuing task — which runs spawned off the inbound path, so the producer is
not blocked — until the worker makes room; a completed enqueue keeps the
queue within capacity, so the queue length never exceeds 1000; and an enqueue
returns an error only when the worker's receiving half is closed, never
because the queue is full. -/
theorem queue_bounded_send_suspends_at_capacity (q : List QueuedMessage)
    (m : QueuedMessage) :
    (q.length = MAX_QUEUE_SIZE → channelSend true q m = SendOutcome.suspended) ∧
    (∀ q', channelSend true q m = SendOutcome.delivered q' →
      q.length < MAX_QUEUE_SIZE ∧ q'.length ≤ MAX_QUEUE_SIZE) ∧
    (∀ b : Bool, channelSend b q m = SendOutcome.closed → b = false) := by
  refine ⟨?_, ?_, ?_⟩
  · intro hq
    simp only [channelSend]
    rw [if_neg (by simp), if_neg (by omega)]
  · intro q' hq'
    simp only [channelSend] at hq'
    rw [if_neg (by simp)] at hq'
    by_cases hlt : q.length < MAX_QUEUE_SIZE
    · rw [if_pos hlt] at hq'
      cases hq'
      refine ⟨hlt, ?_⟩
      simp only [List.length_append, List.length_cons, List.length_nil]
      omega
    · rw [if_neg hlt] at hq'
      exact absurd hq' (by simp)
  · intro b hb
    by_cases h : b = false
    · exact h
    · exfalso
      simp only [channelSend] at hb
      rw [if_neg h] at hb
      split at hb <;> simp at hb

/-- C1 witness: an enqueue on a concrete queue of exactly 1000 pending
items suspends. -/
theorem queue_bounded_send_suspends_at_capacity_witness :
    channelSend true (List.replicate MAX_QUEUE_SIZE ⟨.Leave "z", 2, .High, 1⟩)
        ⟨.Leave "w", 3, .High, 1⟩ = SendOutcome.suspended :=
  (queue_bounded_send_suspends_at_capacity _ _).1 (by simp)

/-!
### C4 — the periodic state-sync tick
-/

/-- C4 counterexample: with one participant ("alice", reply tag 7) and a
nonempty history, a state-sync tick of the `create` path sends exactly one
message, addressed to the room's own address — not a Medium-priority delivery
enqueued per participant: the destination list is `[SyncDest.room]`, while a
delivery to alice would be addressed `SyncDest.replyTag 7`, a different
destination. -/
theorem state_sync_tick_sends_to_room_only :
    stateSyncTick ⟨[("alice", 7)], [⟨"alice", "hi", 1⟩]⟩
      = (⟨[("alice", 7)], [⟨"alice", "hi", 1⟩]⟩,
         [(SyncDest.room, ChatMessage.StateSync [⟨"alice", "hi", 1⟩] ["alice"])]) ∧
    ((stateSyncTick ⟨[("alice", 7)], [⟨"alice", "hi", 1⟩]⟩).2.map Prod.fst)
      = [SyncDest.room] ∧
    (SyncDest.room == SyncDest.replyTag 7) = false := by
  refine ⟨rfl, rfl, rfl⟩

/-- C4 (amended): on every state-sync tick of the `create` path: if the
participants map or the history is empty, nothing is sent and the state is
unchanged; otherwise a single StateSync message built from the current
history and the participant usernames is sent to the room's own address (it
is not enqueued per participant and carries no priority tag), and the state
is unchanged. -/
theorem state_sync_tick_behavior (st : MainRoomState) :
    (st.participants = [] ∨ st.history = [] → stateSyncTick st = (st, [])) ∧
    (st.participants ≠ [] → st.history ≠ [] →
      stateSyncTick st
        = (st, [(SyncDest.room,
                 ChatMessage.StateSync st.history (st.participants.map Prod.fst))])) := by
  constructor
  · intro h
    simp only [stateSyncTick]
    rcases h with h | h <;> rw [if_pos (by simp [h])]
  · intro h1 h2
    simp only [stateSyncTick]
    rw [if_neg (by simp [h1, h2])]

/-- C4 witness: the empty room skips its tick; a room with one participant
and one history item sends the single room-addressed StateSync. -/
theorem state_sync_tick_behavior_witness :
    stateSyncTick ⟨[], []⟩ = (⟨[], []⟩, []) ∧
    stateSyncTick ⟨[("bob", 9)], [⟨"bob", "yo", 2⟩]⟩
      = (⟨[("bob", 9)], [⟨"bob", "yo", 2⟩]⟩,
         [(SyncDest.room, ChatMessage.StateSync [⟨"bob", "yo", 2⟩] ["bob"])]) :=
  ⟨(state_sync_tick_behavior _).1 (Or.inl rfl),
   (state_sync_tick_behavior _).2 (by simp) (by simp)⟩

/-!
### C8, C9 — inbound messages without a sender tag
-/

/-- C8: a Join arriving without a reply handle (no sender tag on the
envelope) is logged and discarded before dispatch: no participant is added,
and the room state — registry, history, counters — is unchanged, with no
delivery enqueued. -/
theorem join_without_handle_dropped (st : RoomState) (u : String) (now : Nat) :
    handleInbound st (some (.Join u)) none now = (st, []) := rfl

/-- C9: every inbound message whose envelope lacks a sender tag is discarded
before the event-kind dispatch, whatever its kind: the room state (registry,
history, counters) is unchanged and no delivery is enqueued — in particular a
tagless Leave removes nobody, and a tagless Text refreshes no timestamp, is
not appended to history, and is not broadcast. -/
theorem tagless_inbound_dropped (st : RoomState) (m : ChatMessage) (now : Nat) :
    handleInbound st (some m) none now = (st, []) := rfl

/-!
### C10 — Text from an unregistered sender is fully processed
-/

/-- C10: a Text event whose sender username is not in the registry is still
fully processed: the touch is a no-op (no last-active timestamp changes and
the registry is unchanged), the item is appended to history, the message
counter is incremented, and the Text is broadcast to every registered
participant — the exclusion of the sender excludes nobody. Registry
membership is not required to inject messages into the room. -/
theorem text_from_unregistered_fully_processed (st : RoomState)
    (f content : String) (ts tag now : Nat)
    (hf : ∀ p ∈ st.participants, p.username ≠ f) :
    ((handleEvent st (.Text f content ts) tag now).1.participants
        = st.participants) ∧
    ((handleEvent st (.Text f content ts) tag now).1.history
        = histAppend st.history ⟨f, content, ts⟩) ∧
    ((handleEvent st (.Text f content ts) tag now).1.message_count
        = st.message_count + 1) ∧
    ((handleEvent st (.Text f content ts) tag now).2
        = st.participants.map
            (fun p => ⟨.Text f content ts, p.sender_tag, .Low, now⟩)) := by
  have htouch : (st.participants.map
      (fun p => if p.username = f then { p with last_active := now } else p))
        = st.participants := by
    rw [List.map_congr_left (g := fun p => p) (fun p hp => if_neg (hf p hp))]
    exact List.map_id' st.participants
  have hfilter : st.participants.filter (fun p => p.username ≠ f)
      = st.participants :=
    List.filter_eq_self.mpr (fun p hp => by simp [hf p hp])
  simp only [handleEvent, addHistoryItem, broadcastToParticipants, htouch,
    hfilter, List.map_map]
  exact ⟨trivial, trivial, trivial, rfl⟩

/-- C10 witness: a Text from unregistered "alice" in a room whose only
participant is "bob" keeps the registry, records the item, and is broadcast
to bob. -/
theorem text_from_unregistered_fully_processed_witness :
    ((handleEvent ⟨[⟨"bob", 2, 0⟩], [], 0, 0, 0⟩ (.Text "alice" "hi" 5) 9 10).1.participants
        = [⟨"bob", 2, 0⟩]) ∧
    ((handleEvent ⟨[⟨"bob", 2, 0⟩], [], 0, 0, 0⟩ (.Text "alice" "hi" 5) 9 10).1.history
        = histAppend [] ⟨"alice", "hi", 5⟩) ∧
    ((handleEvent ⟨[⟨"bob", 2, 0⟩], [], 0, 0, 0⟩ (.Text "alice" "hi" 5) 9 10).2
        = [⟨.Text "alice" "hi" 5, 2, .Low, 10⟩]) := by
  have h := text_from_unregistered_fully_processed ⟨[⟨"bob", 2, 0⟩], [], 0, 0, 0⟩
    "alice" "hi" 5 9 10 (by decide)
  exact ⟨h.1, h.2.1, h.2.2.2⟩

/-!
### Broadcast fan-out characterization (shared by C6 and C7)
-/

/-- Membership in a broadcast fan-out: a queued delivery is produced exactly
for each registered participant whose username differs from the excluded
one. -/
theorem mem_broadcastToParticipants (message : ChatMessage)
    (ps : List Participant) (u : String) (prio : MessagePriority) (now : Nat)
    (q : QueuedMessage) :
    q ∈ broadcastToParticipants message ps u prio now ↔
      ∃ p ∈ ps, p.username ≠ u ∧ q = ⟨message, p.sender_tag, prio, now⟩ := by
  simp only [broadcastToParticipants, List.map_map, List.mem_map,
    List.mem_filter, Function.comp]
  constructor
  · rintro ⟨p, ⟨hp, hpu⟩, rfl⟩
    exact ⟨p, hp, by simpa using hpu, rfl⟩
  · rintro ⟨p, hp, hpu, rfl⟩
    exact ⟨p, ⟨hp, by simpa using hpu⟩, rfl⟩

/-!
### C6 — broadcast exclusion
-/

/-- C6 counterexample: in the registry holding alice with tag 5 and bob also
with tag 5 — two usernames sharing one reply handle, as two Joins sent by a
single client produce — broadcasting with exclusion "alice" enqueues a
delivery addressed to tag 5, which is alice's own registered handle. -/
theorem broadcast_reaches_excluded_users_handle :
    (⟨"alice", 5, 0⟩ : Participant) ∈
        ([⟨"alice", 5, 0⟩, ⟨"bob", 5, 0⟩] : List Participant) ∧
    (⟨.Text "alice" "hi" 0, 5, .Low, 7⟩ : QueuedMessage) ∈
      broadcastToParticipants (.Text "alice" "hi" 0)
        [⟨"alice", 5, 0⟩, ⟨"bob", 5, 0⟩] "alice" .Low 7 := by
  constructor
  · exact List.mem_cons_self _ _
  · decide

/-- C6 (amended): broadcast with exclusion `u` excludes by username, not by
handle: every enqueued delivery carries the payload at the given priority and
is addressed to the handle of some participant whose username differs from
`u`; every participant other than `u` gets an enqueue attempt; when no other
participant's entry holds the same handle as a `u` entry, no delivery is
addressed to a handle registered under `u`; and each recipient's enqueue is
attempted with its own outcome, independent of the outcomes of the other
recipients' enqueues (a rejected enqueue does not abort the fan-out). -/
theorem broadcast_excludes_by_username (message : ChatMessage)
    (ps : List Participant) (u : String) (prio : MessagePriority) (now : Nat) :
    (∀ q ∈ broadcastToParticipants message ps u prio now,
       q.message = message ∧ q.priority = prio ∧
       ∃ p ∈ ps, p.username ≠ u ∧ q.recipient = p.sender_tag) ∧
    (∀ p ∈ ps, p.username ≠ u →
       (⟨message, p.sender_tag, prio, now⟩ : QueuedMessage)
         ∈ broadcastToParticipants message ps u prio now) ∧
    ((∀ p ∈ ps, p.username ≠ u → ∀ p2 ∈ ps, p2.username = u →
        p.sender_tag ≠ p2.sender_tag) →
      ∀ q ∈ broadcastToParticipants message ps u prio now,
        ∀ p2 ∈ ps, p2.username = u → q.recipient ≠ p2.sender_tag) ∧
    (∀ (outcome : QueuedMessage → Bool) (q : QueuedMessage),
       q ∈ broadcastToParticipants message ps u prio now →
         (q, outcome q) ∈ attemptEnqueues outcome
           (broadcastToParticipants message ps u prio now)) := by
  refine ⟨?_, ?_, ?_, ?_⟩
  · intro q hq
    rcases (mem_broadcastToParticipants message ps u prio now q).mp hq
      with ⟨p, hp, hpu, rfl⟩
    exact ⟨rfl, rfl, p, hp, hpu, rfl⟩
  · intro p hp hpu
    exact (mem_broadcastToParticipants message ps u prio now _).mpr
      ⟨p, hp, hpu, rfl⟩
  · intro hsep q hq p2 hp2 hp2u
    rcases (mem_broadcastToParticipants message ps u prio now q).mp hq
      with ⟨p, hp, hpu, rfl⟩
    exact hsep p hp hpu p2 hp2 hp2u
  · intro outcome q hq
    exact List.mem_map.mpr ⟨q, hq, rfl⟩

/-- C6 witness: with alice (tag 1) and bob (tag 2) registered, broadcasting a
Join with exclusion "alice" attempts the enqueue for bob's handle. -/
theorem broadcast_excludes_by_username_witness :
    (⟨.Join "carol", 2, .High, 3⟩ : QueuedMessage)
      ∈ broadcastToParticipants (.Join "carol")
          [⟨"alice", 1, 0⟩, ⟨"bob", 2, 0⟩] "alice" .High 3 :=
  (broadcast_excludes_by_username (.Join "carol")
      [⟨"alice", 1, 0⟩, ⟨"bob", 2, 0⟩] "alice" .High 3).2.1
    ⟨"bob", 2, 0⟩ (by decide) (by decide)

/-!
### C7 — Join with a usable reply handle
-/

/-- Usernames after an upsert: unchanged when the key was present (the entry
is replaced in place), extended by the new username otherwise. -/
theorem upsert_map_username (ps : List Participant) (u : String) (tag now : Nat) :
    (upsert ps u tag now).map (·.username)
      = if ps.any (fun p => p.username = u) then ps.map (·.username)
        else ps.map (·.username) ++ [u] := by
  simp only [upsert]
  split
  · rw [List.map_map]
    apply List.map_congr_left
    intro p _
    by_cases h : p.username = u
    · simp [Function.comp, h]
    · simp [Function.comp, h]
  · simp

/-- Every entry carrying the upserted username is the freshly inserted
entry. -/
theorem upsert_entry_eq (ps : List Participant) (u : String) (tag now : Nat) :
    ∀ p ∈ upsert ps u tag now, p.username = u → p = ⟨u, tag, now⟩ := by
  simp only [upsert]
  split
  · intro p hp hpu
    rcases List.mem_map.mp hp with ⟨q, _, rfl⟩
    by_cases h : q.username = u
    · simp [h]
    · rw [if_neg h] at hpu ⊢
      exact absurd hpu h
  · rename_i hany
    intro p hp hpu
    rcases List.mem_append.mp hp with h | h
    · exact absurd (List.any_eq_true.mpr ⟨p, h, by simp [hpu]⟩) hany
    · simpa using h

/-- The upserted username occurs exactly once among a registry's usernames,
provided they were pairwise distinct. -/
theorem upsert_count_one (ps : List Participant) (u : String) (tag now : Nat)
    (hnd : (ps.map (·.username)).Nodup) :
    ((upsert ps u tag now).map (·.username)).count u = 1 := by
  rw [upsert_map_username]
  split
  · rename_i hany
    rcases List.any_eq_true.mp hany with ⟨p, hp, hpu⟩
    exact List.count_eq_one_of_mem hnd
      (List.mem_map.mpr ⟨p, hp, by simpa using hpu⟩)
  · rename_i hany
    have hu : u ∉ ps.map (·.username) := by
      intro hmem
      rcases List.mem_map.mp hmem with ⟨p, hp, hpu⟩
      exact hany (List.any_eq_true.mpr ⟨p, hp, by simp [hpu]⟩)
    rw [List.count_append, List.count_eq_zero_of_not_mem hu]
    simp

/-- The upserted username is present afterwards. -/
theorem mem_upsert_username (ps : List Participant) (u : String) (tag now : Nat) :
    u ∈ (upsert ps u tag now).map (·.username) := by
  rw [upsert_map_username]
  split
  · rename_i hany
    rcases List.any_eq_true.mp hany with ⟨p, hp, hpu⟩
    exact List.mem_map.mpr ⟨p, hp, by simpa using hpu⟩
  · simp

/-- C7: a Join(u) carrying a usable reply handle, on a registry with
pairwise-distinct usernames: the registry ends with exactly one entry for u,
holding the new handle and timestamp (so a re-Join overwrites the old entry);
the message counter is incremented by one; the history is untouched; the
first enqueue initiated is a Medium-priority StateSync unicast to the joining
handle, built from the post-insert history and registry snapshots (which
therefore list the joiner); and the remaining enqueues are the High-priority
broadcast of the Join excluding the joiner, with one attempt for each other
registered participant. -/
theorem join_with_handle (st : RoomState) (u : String) (tag now : Nat)
    (hnd : (st.participants.map (·.username)).Nodup) :
    (((handleEvent st (.Join u) tag now).1.participants.map (·.username)).count u
        = 1) ∧
    (∀ p ∈ (handleEvent st (.Join u) tag now).1.participants,
       p.username = u → p = ⟨u, tag, now⟩) ∧
    ((handleEvent st (.Join u) tag now).1.message_count
        = st.message_count + 1) ∧
    ((handleEvent st (.Join u) tag now).1.history = st.history) ∧
    ((handleEvent st (.Join u) tag now).2.head?
        = some ⟨.StateSync (handleEvent st (.Join u) tag now).1.history
                 ((handleEvent st (.Join u) tag now).1.participants.map (·.username)),
               tag, .Medium, now⟩) ∧
    (u ∈ (handleEvent st (.Join u) tag now).1.participants.map (·.username)) ∧
    (∀ q ∈ (handleEvent st (.Join u) tag now).2.tail,
       q.message = .Join u ∧ q.priority = .High ∧
       ∃ p ∈ (handleEvent st (.Join u) tag now).1.participants,
         p.username ≠ u ∧ q.recipient = p.sender_tag) ∧
    (∀ p ∈ (handleEvent st (.Join u) tag now).1.participants, p.username ≠ u →
       (⟨.Join u, p.sender_tag, .High, now⟩ : QueuedMessage)
         ∈ (handleEvent st (.Join u) tag now).2.tail) := by
  simp only [handleEvent, List.head?_cons, List.tail_cons]
  refine ⟨upsert_count_one st.participants u tag now hnd,
    upsert_entry_eq st.participants u tag now, trivial, trivial, trivial,
    mem_upsert_username st.participants u tag now, ?_, ?_⟩
  · intro q hq
    rcases (mem_broadcastToParticipants (.Join u)
        (upsert st.participants u tag now) u .High now q).mp hq
      with ⟨p, hp, hpu, rfl⟩
    exact ⟨rfl, rfl, p, hp, hpu, rfl⟩
  · intro p hp hpu
    exact (mem_broadcastToParticipants (.Join u)
        (upsert st.participants u tag now) u .High now _).mpr ⟨p, hp, hpu, rfl⟩

/-- C7 witness (the spec's scenario): a Join of "alice" with handle 7 into an
empty room yields a registry listing exactly "alice", and the first enqueue
is a Medium-priority StateSync to handle 7 with empty history and
participants equal to the singleton "alice". -/
theorem join_with_handle_witness :
    ((((handleEvent ⟨[], [], 0, 0, 0⟩ (.Join "alice") 7 100).1.participants.map
        (·.username)).count "alice") = 1) ∧
    ((handleEvent ⟨[], [], 0, 0, 0⟩ (.Join "alice") 7 100).1.participants.map
        (·.username) = ["alice"]) ∧
    ((handleEvent ⟨[], [], 0, 0, 0⟩ (.Join "alice") 7 100).2.head?
        = some ⟨.StateSync [] ["alice"], 7, .Medium, 100⟩) := by
  have h := join_with_handle ⟨[], [], 0, 0, 0⟩ "alice" 7 100 (by decide)
  exact ⟨h.1, by decide, h.2.2.2.2.1⟩

end Nymcat
